import Mathlib

/-!
Verification of the ROG continuation-pagination protocol (ROG.py).

Strings are modelled as lists of characters; the Python substring test
(the `in` operator) is list infixhood, `str.replace(old, "")` is a
left-to-right non-overlapping removal pass, and `str.strip()` drops
leading and trailing whitespace.  The OpenAI transport is modelled by
the list of texts it would return on successive calls (one round result
per call in buffered mode, one list of chunks per call in streaming
mode); an exhausted list models a run that is still ongoing.
-/

namespace ROG

/-- A chat message, mirroring the role/content dictionaries built by
generate_system_message and generate_user_message in ROG.py. -/
structure Message where
  role : List Char
  content : List Char
deriving DecidableEq

/-- Mirrors generate_system_message (ROG.py lines 2-15). -/
def generate_system_message (system_message : List Char) : Message :=
  ⟨"system".data, system_message⟩

/-- Mirrors generate_user_message (ROG.py lines 18-31). -/
def generate_user_message (user_message : List Char) : Message :=
  ⟨"user".data, user_message⟩

/-- Whitespace characters removed by Python str.strip: the characters
on which str.isspace() holds (ASCII whitespace, the C1 and separator
controls, and the Unicode space separators). -/
def isPySpace (c : Char) : Bool :=
  c == ' ' || c == '\t' || c == '\n' || c == '\r' || c == '\x0b' || c == '\x0c' ||
  c == '\x1c' || c == '\x1d' || c == '\x1e' || c == '\x1f' || c == '\x85' ||
  c == '\xa0' || c == '\u1680' || c == '\u2000' || c == '\u2001' || c == '\u2002' ||
  c == '\u2003' || c == '\u2004' || c == '\u2005' || c == '\u2006' || c == '\u2007' ||
  c == '\u2008' || c == '\u2009' || c == '\u200a' || c == '\u2028' || c == '\u2029' ||
  c == '\u202f' || c == '\u205f' || c == '\u3000'

/-- Python str.lstrip. -/
def lstrip (s : List Char) : List Char := s.dropWhile isPySpace

/-- Python str.rstrip. -/
def rstrip (s : List Char) : List Char := (s.reverse.dropWhile isPySpace).reverse

/-- Python str.strip. -/
def strip (s : List Char) : List Char := rstrip (lstrip s)

/-- Fuelled worker for replaceAll; the fuel is an upper bound on the
length of the remaining input, so it never runs out. -/
def replaceAllAux (old : List Char) : Nat → List Char → List Char
  | 0, s => s
  | _ + 1, [] => []
  | fuel + 1, a :: rest =>
    if old ≠ [] ∧ old <+: a :: rest then
      replaceAllAux old fuel ((a :: rest).drop old.length)
    else
      a :: replaceAllAux old fuel rest

/-- Python s.replace(old, ""): remove every left-to-right
non-overlapping occurrence of old from s. -/
def replaceAll (old s : List Char) : List Char := replaceAllAux old s.length s

/-- Mirrors accumulate_response (ROG.py lines 34-58): append the
fragment to the accumulated text, clear the continuation flag when the
stop sequence occurs in the fragment, and extend the conversation with
the transcript line and the continuation directive. -/
def accumulate_response (current_response accumulated_response : List Char)
    (conversation_ongoing : Bool) (conversation : List Char)
    (stop_sequence : List Char) : List Char × Bool × List Char :=
  let accumulated := accumulated_response ++ current_response
  let ongoing := if stop_sequence <:+: current_response then false else conversation_ongoing
  let conversation' :=
    conversation ++ "\nAssistant:".data ++ current_response ++
      "\nUser:Continue immediately after where you left off.".data
  (accumulated, ongoing, conversation')

/-- Mirrors the Python statement messages[-1]['content'] = conversation:
rewrite the content of the trailing message, keeping everything else.
This is exact for non-empty lists; on the empty list Python raises
IndexError instead, so theorems about whole driver runs carry a
non-empty-messages hypothesis and never rely on the empty branch. -/
def setLastContent : List Message → List Char → List Message
  | [], _ => []
  | [m], c => [⟨m.role, c⟩]
  | m :: m' :: rest, c => m :: setLastContent (m' :: rest) c

/-- The content of the trailing message (messages[-1]['content']),
exact for non-empty lists; on the empty list Python raises IndexError
before any transport call, so theorems about whole driver runs carry a
non-empty-messages hypothesis and never rely on the default value. -/
def lastContent (msgs : List Message) : List Char :=
  ((msgs.getLast?).map Message.content).getD []

/-- Result of one run of the buffered driver: the returned text (none
when the transport list was exhausted while the loop was still
ongoing), the number of transport calls performed, the final message
list, and the snapshot of the message list after every round. -/
structure GptRun where
  result? : Option (List Char)
  calls : Nat
  messages : List Message
  trace : List (List Message)
deriving DecidableEq

/-- Loop body of call_gpt (ROG.py lines 87-102): each transport call
yields the next element of responses; the round result is fed through
accumulate_response and the trailing message content is overwritten. -/
def callGptLoop (stop : List Char) :
    List (List Char) → List Char → List Char → List Message → GptRun
  | [], _, _, msgs => ⟨none, 0, msgs, []⟩
  | r :: rest, acc, conv, msgs =>
    let res := accumulate_response r acc true conv stop
    let msgs' := setLastContent msgs res.2.2
    if res.2.1 then
      let k := callGptLoop stop rest res.1 res.2.2 msgs'
      ⟨k.result?, k.calls + 1, k.messages, msgs' :: k.trace⟩
    else
      ⟨some (strip (strip (replaceAll stop res.1))), 1, msgs', [msgs']⟩

/-- Mirrors call_gpt (ROG.py lines 61-106) with the transport modelled
by the list of texts it returns on successive calls. -/
def call_gpt (responses : List (List Char)) (messages : List Message)
    (stop_sequence : List Char) : GptRun :=
  callGptLoop stop_sequence responses [] (lastContent messages) messages

/-- Result of one run of the streaming driver: the chunks yielded to
the consumer in order, the number of transport calls, the final message
list, the per-round message snapshots, and whether a round detected the
stop sequence. -/
structure StreamRun where
  yielded : List (List Char)
  calls : Nat
  messages : List Message
  trace : List (List Message)
  finished : Bool
deriving DecidableEq

/-- Loop body of call_gpt_stream (ROG.py lines 136-157): each transport
call yields a list of chunks; non-empty chunks are yielded to the
consumer and concatenated into the per-round fragment, which is then
fed through accumulate_response exactly as in the buffered driver. -/
def callGptStreamLoop (stop : List Char) :
    List (List (List Char)) → List Char → List Char → List Message → StreamRun
  | [], _, _, msgs => ⟨[], 0, msgs, [], false⟩
  | chunks :: rest, acc, conv, msgs =>
    let ys := chunks.filter (fun ch => !ch.isEmpty)
    let current := ys.flatten
    let res := accumulate_response current acc true conv stop
    let msgs' := setLastContent msgs res.2.2
    if res.2.1 then
      let k := callGptStreamLoop stop rest res.1 res.2.2 msgs'
      ⟨ys ++ k.yielded, k.calls + 1, k.messages, msgs' :: k.trace, k.finished⟩
    else
      ⟨ys, 1, msgs', [msgs'], true⟩

/-- Mirrors call_gpt_stream (ROG.py lines 109-157) with the streaming
transport modelled by the list of chunk lists it delivers per round. -/
def call_gpt_stream (rounds : List (List (List Char))) (messages : List Message)
    (stop_sequence : List Char) : StreamRun :=
  callGptStreamLoop stop_sequence rounds [] (lastContent messages) messages

/-- The sentinel character gated on by the streaming consumer loop. -/
def dagger : Char := '‡'

/-- Result of the streaming consumer filter: the text printed, the
final pending sentinel count, whether the loop broke on detecting the
full stop sequence, and how many chunks it consumed from the stream. -/
structure FilterResult where
  emitted : List Char
  pending : Nat
  stopped : Bool
  consumed : Nat
deriving DecidableEq

/-- Mirrors the streaming consumer loop of generate_long_response
(ROG.py lines 203-215): empty chunks are skipped; a chunk containing
the sentinel bumps the counter by one and breaks when it reaches 5; any
other chunk is printed preceded by the buffered sentinels and the
counter resets.  The stop_sequence parameter is in scope in the source
but unused by this loop. -/
def stream_filter (stop_sequence : List Char) :
    List (List Char) → Nat → FilterResult
  | [], count => ⟨[], count, false, 0⟩
  | chunk :: rest, count =>
    if chunk.isEmpty then
      let k := stream_filter stop_sequence rest count
      ⟨k.emitted, k.pending, k.stopped, k.consumed + 1⟩
    else if dagger ∈ chunk then
      if count + 1 = 5 then ⟨[], count + 1, true, 1⟩
      else
        let k := stream_filter stop_sequence rest (count + 1)
        ⟨k.emitted, k.pending, k.stopped, k.consumed + 1⟩
    else
      let k := stream_filter stop_sequence rest 0
      ⟨List.replicate count dagger ++ chunk ++ k.emitted, k.pending, k.stopped, k.consumed + 1⟩

/-- Length of the leading run of the character c; used to reason about
repeated-character stop markers. -/
def leadRun (c : Char) : List Char → Nat
  | [] => 0
  | a :: rest => if a = c then leadRun c rest + 1 else 0

/-! ### Claims about the Accumulator -/

/-- C1: for every accumulator call whose incoming continuation flag is
true, the returned flag is false exactly when the stop marker occurs as
a substring of the current fragment, and the returned flag does not
depend on the accumulated text. -/
theorem claim_C1 (current conv stop : List Char) :
    (∀ acc : List Char,
      ((accumulate_response current acc true conv stop).2.1 = false ↔ stop <:+: current)) ∧
    ∀ acc acc' : List Char,
      (accumulate_response current acc true conv stop).2.1 =
        (accumulate_response current acc' true conv stop).2.1 := by
  constructor
  · intro acc
    by_cases h : stop <:+: current <;> simp [accumulate_response, h]
  · intro acc acc'
    rfl

/-- C6: every accumulator call, terminating or not, returns the
incoming conversation extended with the transcript line for the
assistant fragment and the continuation directive, so the returned
conversation contains the literal substrings "\nAssistant:" and
"Continue immediately after where you left off.". -/
theorem claim_C6 (current acc conv stop : List Char) (ongoing : Bool) :
    (accumulate_response current acc ongoing conv stop).2.2 =
      conv ++ "\nAssistant:".data ++ current ++
        "\nUser:Continue immediately after where you left off.".data ∧
    "\nAssistant:".data <:+: (accumulate_response current acc ongoing conv stop).2.2 ∧
    "Continue immediately after where you left off.".data <:+:
      (accumulate_response current acc ongoing conv stop).2.2 := by
  have hsplit : "\nUser:Continue immediately after where you left off.".data =
      "\nUser:".data ++ "Continue immediately after where you left off.".data := by decide
  refine ⟨rfl, ?_, ?_⟩
  · exact ⟨conv, current ++ "\nUser:Continue immediately after where you left off.".data, by
      simp [accumulate_response, List.append_assoc]⟩
  · refine ⟨conv ++ "\nAssistant:".data ++ current ++ "\nUser:".data, [], ?_⟩
    simp [accumulate_response, hsplit, List.append_assoc]

/-! ### Claims about the streaming consumer filter -/

/-- C3 counterexample: on chunks ["‡‡", "‡", "X"] the filter emits
"‡‡X", not "‡‡‡X" as claimed: the pending count is bumped once per
sentinel-bearing chunk, not once per sentinel occurrence. -/
theorem claim_C3_cex :
    (stream_filter "‡‡‡‡‡".data ["‡‡".data, "‡".data, "X".data] 0).emitted = "‡‡X".data ∧
    "‡‡X".data ≠ "‡‡‡X".data := by decide

/-- C3 amended: on chunks ["‡‡", "‡", "X"] with marker length 5 the
filter emits nothing for the first two chunks and emits exactly "‡‡X"
on the third: the pending count reaches 2 (one per sentinel-bearing
chunk), is flushed as two sentinels and followed by the chunk. -/
theorem claim_C3 :
    stream_filter "‡‡‡‡‡".data ["‡‡".data, "‡".data] 0 =
      ⟨[], 2, false, 2⟩ ∧
    stream_filter "‡‡‡‡‡".data ["‡‡".data, "‡".data, "X".data] 0 =
      ⟨"‡‡X".data, 0, false, 3⟩ := by decide

/-- C4 counterexample: on chunks ["‡‡‡", "‡‡", "tail"] the filter does
not emit nothing: it emits "‡‡tail", because the per-chunk count only
reaches 2, generation is not treated as finished, and the pending
sentinels are flushed in front of "tail". -/
theorem claim_C4_cex :
    (stream_filter "‡‡‡‡‡".data ["‡‡‡".data, "‡‡".data, "tail".data] 0).emitted =
      "‡‡tail".data ∧
    "‡‡tail".data ≠ ([] : List Char) := by decide

/-- C4 amended: on chunks ["‡‡‡", "‡‡", "tail"] with marker length 5
the filter emits "‡‡tail": the pending count is bumped once per
sentinel-bearing chunk, so it reaches only 2, never 5, the run is
treated as a false alarm, and "tail" is emitted preceded by two
sentinels. -/
theorem claim_C4 :
    stream_filter "‡‡‡‡‡".data ["‡‡‡".data, "‡‡".data, "tail".data] 0 =
      ⟨"‡‡tail".data, 0, false, 3⟩ := by decide

/-- C5 counterexample: a chunk consisting solely of two sentinel
characters bumps the pending count by one, not by its occurrence count
two. -/
theorem claim_C5_cex :
    (stream_filter "‡‡‡‡‡".data ["‡‡".data] 0).pending = 1 ∧
    "‡‡".data.count dagger = 2 ∧ (1 : Nat) ≠ 2 := by decide

/-- Helper for C5: on a stream of non-empty sentinel-bearing chunks the
filter, started below the threshold, emits nothing, bumps the pending
count by one per chunk, and breaks as soon as the count reaches 5. -/
theorem stream_filter_daggerRun (stop : List Char) (chunks : List (List Char)) :
    ∀ count : Nat, count < 5 →
      (∀ ch ∈ chunks, ch ≠ [] ∧ dagger ∈ ch) →
      stream_filter stop chunks count =
        if 5 ≤ count + chunks.length then ⟨[], 5, true, 5 - count⟩
        else ⟨[], count + chunks.length, false, chunks.length⟩ := by
  induction chunks with
  | nil =>
    intro count hc _
    rw [if_neg (by simp; omega)]
    simp [stream_filter]
  | cons ch rest ih =>
    intro count hc hall
    have hch := hall ch (by simp)
    have hrest : ∀ c ∈ rest, c ≠ [] ∧ dagger ∈ c := fun c hc' => hall c (by simp [hc'])
    have hne : ¬ ch.isEmpty = true := by simpa using hch.1
    by_cases h5 : count + 1 = 5
    · rw [if_pos (by simp; omega)]
      simp [stream_filter, hne, hch.2, h5]
      omega
    · have hrec := ih (count + 1) (by omega) hrest
      simp only [stream_filter, hne, if_false, Bool.false_eq_true, hch.2, if_true, h5,
        if_neg h5, hrec]
      by_cases hlen : 5 ≤ count + 1 + rest.length
      · rw [if_pos hlen, if_pos (by simp; omega)]
        simp
        omega
      · rw [if_neg hlen, if_neg (by simp; omega)]
        simp
        omega

/-- C5 amended: for chunks consisting of (or containing) the sentinel
the filter bumps its pending count by one per chunk, not by the number
of sentinel occurrences, and it stops consuming the stream as soon as
that per-chunk count reaches 5: with at least five such chunks it
consumes exactly five and emits nothing, with fewer it consumes them
all, the pending count being the number of chunks. -/
theorem claim_C5 (stop : List Char) (chunks : List (List Char))
    (h : ∀ ch ∈ chunks, ch ≠ [] ∧ dagger ∈ ch) :
    (5 ≤ chunks.length → stream_filter stop chunks 0 = ⟨[], 5, true, 5⟩) ∧
    (chunks.length < 5 →
      stream_filter stop chunks 0 = ⟨[], chunks.length, false, chunks.length⟩) := by
  have hrun := stream_filter_daggerRun stop chunks 0 (by omega) h
  constructor
  · intro hlen
    rw [hrun, if_pos (by omega)]
  · intro hlen
    rw [hrun, if_neg (by omega)]
    simp

/-- C5 witness: six chunks of one sentinel each; the filter stops after
the fifth chunk, leaving the sixth unconsumed. -/
theorem claim_C5_witness :
    stream_filter "‡‡‡‡‡".data
      ["‡".data, "‡".data, "‡".data, "‡".data, "‡".data, "‡".data] 0 =
      ⟨[], 5, true, 5⟩ :=
  (claim_C5 "‡‡‡‡‡".data
    ["‡".data, "‡".data, "‡".data, "‡".data, "‡".data, "‡".data]
    (by decide)).1 (by decide)

/-- C9: the streaming consumer filter gates on the literal sentinel and
the literal count 5 and is independent of the configured stop sequence;
on chunks free of the sentinel (in particular chunks spelling out a
configured marker that contains no sentinel) it suppresses nothing and
never stops: it emits every chunk in order and consumes the whole
stream. -/
theorem claim_C9 (stop stop' : List Char) (chunks : List (List Char)) (count : Nat) :
    stream_filter stop chunks count = stream_filter stop' chunks count ∧
    (dagger ∉ stop → (∀ ch ∈ chunks, dagger ∉ ch) →
      stream_filter stop chunks 0 = ⟨chunks.flatten, 0, false, chunks.length⟩) := by
  constructor
  · induction chunks generalizing count with
    | nil => rfl
    | cons ch rest ih => simp only [stream_filter, ih]
  · intro _ hall
    induction chunks with
    | nil => rfl
    | cons ch rest ih =>
      have hch : dagger ∉ ch := hall ch (by simp)
      have hrest : ∀ c ∈ rest, dagger ∉ c := fun c hc' => hall c (by simp [hc'])
      by_cases hne : ch.isEmpty
      · have : ch = [] := by simpa using hne
        simp [stream_filter, hne, ih hrest, this]
      · simp [stream_filter, hne, hch, ih hrest]

/-- C9 witness: with configured marker "END" (no sentinel character)
the filter treats the stream identically to any other configuration and
passes the chunks spelling out "END" through unsuppressed. -/
theorem claim_C9_witness :
    stream_filter "END".data [['E'], ['N'], ['D']] 0 =
      stream_filter "‡‡‡‡‡".data [['E'], ['N'], ['D']] 0 ∧
    stream_filter "END".data [['E'], ['N'], ['D']] 0 = ⟨"END".data, 0, false, 3⟩ := by
  have h := claim_C9 "END".data "‡‡‡‡‡".data [['E'], ['N'], ['D']] 0
  refine ⟨h.1, ?_⟩
  rw [h.2 (by decide) (by decide)]
  decide

/-- C10: a non-empty chunk that contains the sentinel mixed with other
characters is swallowed whole while the pending count has not yet
reached 5: nothing of it is ever emitted, the pending count is bumped
by exactly one, and processing continues on the rest of the stream
(breaking immediately when the bump reaches 5). -/
theorem claim_C10 (stop chunk : List Char) (rest : List (List Char)) (count : Nat)
    (hne : chunk ≠ []) (hdag : dagger ∈ chunk) (hmix : ∃ c ∈ chunk, c ≠ dagger)
    (hcount : count < 5) :
    stream_filter stop (chunk :: rest) count =
      if count + 1 = 5 then ⟨[], count + 1, true, 1⟩
      else
        ⟨(stream_filter stop rest (count + 1)).emitted,
         (stream_filter stop rest (count + 1)).pending,
         (stream_filter stop rest (count + 1)).stopped,
         (stream_filter stop rest (count + 1)).consumed + 1⟩ := by
  have hne' : ¬ chunk.isEmpty = true := by simpa using hne
  simp only [stream_filter, hne', if_false, Bool.false_eq_true, hdag, if_true]

/-- C10 witness: the mixed chunk "a‡" is dropped entirely (its "a"
never reaches the output), the count becomes 1, and "b" is then emitted
preceded by the one flushed sentinel. -/
theorem claim_C10_witness :
    stream_filter "‡‡‡‡‡".data ["a‡".data, "b".data] 0 = ⟨"‡b".data, 0, false, 2⟩ := by
  rw [claim_C10 "‡‡‡‡‡".data "a‡".data ["b".data] 0 (by decide) (by decide)
    ⟨'a', by decide, by decide⟩ (by decide)]
  decide

/-! ### Claims about the buffered driver -/

/-- One non-terminating round of the buffered driver loop: the fragment
has no stop marker, so the loop recurses with the extended accumulator,
conversation and rewritten trailing message. -/
theorem callGptLoop_cons (stop r : List Char) (L : List (List Char))
    (acc conv : List Char) (msgs : List Message) (h : ¬ stop <:+: r) :
    callGptLoop stop (r :: L) acc conv msgs =
      ⟨(callGptLoop stop L (acc ++ r)
          (conv ++ "\nAssistant:".data ++ r ++
            "\nUser:Continue immediately after where you left off.".data)
          (setLastContent msgs
            (conv ++ "\nAssistant:".data ++ r ++
              "\nUser:Continue immediately after where you left off.".data))).result?,
       (callGptLoop stop L (acc ++ r)
          (conv ++ "\nAssistant:".data ++ r ++
            "\nUser:Continue immediately after where you left off.".data)
          (setLastContent msgs
            (conv ++ "\nAssistant:".data ++ r ++
              "\nUser:Continue immediately after where you left off.".data))).calls + 1,
       (callGptLoop stop L (acc ++ r)
          (conv ++ "\nAssistant:".data ++ r ++
            "\nUser:Continue immediately after where you left off.".data)
          (setLastContent msgs
            (conv ++ "\nAssistant:".data ++ r ++
              "\nUser:Continue immediately after where you left off.".data))).messages,
       setLastContent msgs
          (conv ++ "\nAssistant:".data ++ r ++
            "\nUser:Continue immediately after where you left off.".data) ::
        (callGptLoop stop L (acc ++ r)
          (conv ++ "\nAssistant:".data ++ r ++
            "\nUser:Continue immediately after where you left off.".data)
          (setLastContent msgs
            (conv ++ "\nAssistant:".data ++ r ++
              "\nUser:Continue immediately after where you left off.".data))).trace⟩ := by
  simp [callGptLoop, accumulate_response, h]

/-- The terminating round of the buffered driver loop: the fragment
contains the stop marker, so the loop strips and returns. -/
theorem callGptLoop_cons_stop (stop r : List Char) (L : List (List Char))
    (acc conv : List Char) (msgs : List Message) (h : stop <:+: r) :
    callGptLoop stop (r :: L) acc conv msgs =
      ⟨some (strip (strip (replaceAll stop (acc ++ r)))), 1,
       setLastContent msgs
         (conv ++ "\nAssistant:".data ++ r ++
           "\nUser:Continue immediately after where you left off.".data),
       [setLastContent msgs
         (conv ++ "\nAssistant:".data ++ r ++
           "\nUser:Continue immediately after where you left off.".data)]⟩ := by
  simp [callGptLoop, accumulate_response, h]

/-- Helper: a run of the buffered driver loop on a transport whose
fragments are free of the stop marker until the last one accumulates
every fragment in order, performs one call per fragment, and returns
the accumulated text with the marker replaced away and stripped. -/
theorem callGptLoop_run (stop : List Char) (init : List (List Char))
    (lastf : List Char) (rest : List (List Char)) :
    ∀ (acc conv : List Char) (msgs : List Message),
      (∀ f ∈ init, ¬ stop <:+: f) → stop <:+: lastf →
      (callGptLoop stop (init ++ lastf :: rest) acc conv msgs).result? =
        some (strip (strip (replaceAll stop (acc ++ init.flatten ++ lastf)))) ∧
      (callGptLoop stop (init ++ lastf :: rest) acc conv msgs).calls =
        init.length + 1 := by
  induction init with
  | nil =>
    intro acc conv msgs _ hlast
    rw [List.nil_append, callGptLoop_cons_stop stop lastf rest acc conv msgs hlast]
    simp
  | cons f init ih =>
    intro acc conv msgs hinit hlast
    have hf : ¬ stop <:+: f := hinit f (by simp)
    have hrec := ih (acc ++ f)
      (conv ++ "\nAssistant:".data ++ f ++
        "\nUser:Continue immediately after where you left off.".data)
      (setLastContent msgs
        (conv ++ "\nAssistant:".data ++ f ++
          "\nUser:Continue immediately after where you left off.".data))
      (fun g hg => hinit g (by simp [hg])) hlast
    rw [List.cons_append, callGptLoop_cons stop f _ acc conv msgs hf]
    refine ⟨?_, ?_⟩
    · show (callGptLoop stop (init ++ lastf :: rest) (acc ++ f) _ _).result? = _
      rw [hrec.1]
      simp [List.append_assoc]
    · show (callGptLoop stop (init ++ lastf :: rest) (acc ++ f) _ _).calls + 1 = _
      rw [hrec.2]
      simp

/-- C8: for a well-formed (non-empty) message list, when the transport
never fails and the stop marker occurs in the fragment of round N but
in no earlier fragment, the buffered driver returns a result after
performing exactly N transport calls.  The non-emptiness hypothesis
marks where the model is faithful: on an empty message list the source
raises IndexError at messages[-1] before any transport call. -/
theorem claim_C8 (stop : List Char) (init : List (List Char)) (lastf : List Char)
    (msgs : List Message) (N : Nat) (hmsgs : msgs ≠ [])
    (hN : (init ++ [lastf]).length = N) (hpos : 1 ≤ N)
    (hinit : ∀ f ∈ init, ¬ stop <:+: f) (hlast : stop <:+: lastf) :
    (call_gpt (init ++ [lastf]) msgs stop).result?.isSome = true ∧
    (call_gpt (init ++ [lastf]) msgs stop).calls = N := by
  have h := callGptLoop_run stop init lastf [] [] (lastContent msgs) msgs hinit hlast
  refine ⟨by simp [call_gpt, h.1], ?_⟩
  rw [call_gpt, h.2]
  simp at hN
  omega

/-- C8 witness: a two-message conversation and three rounds with the
marker only in the third fragment, so exactly three transport calls. -/
theorem claim_C8_witness :
    (call_gpt ["a".data, "b".data, "c‡‡‡‡‡".data]
        [generate_system_message "s".data, generate_user_message "u".data]
        "‡‡‡‡‡".data).result?.isSome = true ∧
    (call_gpt ["a".data, "b".data, "c‡‡‡‡‡".data]
        [generate_system_message "s".data, generate_user_message "u".data]
        "‡‡‡‡‡".data).calls = 3 :=
  claim_C8 "‡‡‡‡‡".data ["a".data, "b".data] "c‡‡‡‡‡".data
    [generate_system_message "s".data, generate_user_message "u".data] 3
    (by decide) (by decide) (by decide) (by decide) (by decide)

/-- Unfolding leadRun on a matching head. -/
theorem leadRun_cons_self (c : Char) (rest : List Char) :
    leadRun c (c :: rest) = leadRun c rest + 1 := by simp [leadRun]

/-- Unfolding leadRun on a mismatching head. -/
theorem leadRun_cons_ne (c a : Char) (rest : List Char) (h : a ≠ c) :
    leadRun c (a :: rest) = 0 := by simp [leadRun, h]

/-- A replicate of c is a prefix exactly when the leading run of c is
long enough. -/
theorem replicate_isPrefix_iff (c : Char) (k : Nat) :
    ∀ s : List Char, (List.replicate k c <+: s ↔ k ≤ leadRun c s) := by
  induction k with
  | zero => intro s; simp
  | succ k ih =>
    intro s
    cases s with
    | nil => simp [leadRun]
    | cons a rest =>
      rw [List.replicate_succ, List.cons_prefix_cons]
      by_cases h : a = c
      · subst h
        simp [leadRun_cons_self, ih rest]
      · rw [leadRun_cons_ne c a rest h]
        simp [h]
        intro heq
        exact absurd heq.symm h

/-- Leading run of c across a prepended replicate of c. -/
theorem leadRun_replicate_append (c : Char) (k : Nat) (t : List Char) :
    leadRun c (List.replicate k c ++ t) = k + leadRun c t := by
  induction k with
  | zero => simp
  | succ k ih =>
    rw [List.replicate_succ]
    simp [leadRun, ih]
    omega

/-- After removing a repeated-character marker, the leading run of the
marker character is reduced modulo the marker length. -/
theorem leadRun_replaceAllAux (c : Char) (k : Nat) (hk : 1 ≤ k) :
    ∀ (fuel : Nat) (s : List Char), s.length ≤ fuel →
      leadRun c (replaceAllAux (List.replicate k c) fuel s) = leadRun c s % k := by
  intro fuel
  induction fuel with
  | zero =>
    intro s hs
    have hnil : s = [] := by
      cases s with
      | nil => rfl
      | cons a t => simp at hs
    subst hnil
    simp [replaceAllAux, leadRun]
  | succ fuel ih =>
    intro s hs
    cases s with
    | nil => simp [replaceAllAux, leadRun]
    | cons a rest =>
      have hnn : List.replicate k c ≠ [] := by
        simp [List.replicate_eq_nil_iff]
        omega
      by_cases hpre : List.replicate k c <+: a :: rest
      · rw [replaceAllAux, if_pos ⟨hnn, hpre⟩]
        obtain ⟨t, ht⟩ := hpre
        have hdrop : (a :: rest).drop (List.replicate k c).length = t := by
          rw [← ht, List.drop_left]
        rw [hdrop]
        have hlent : t.length ≤ fuel := by
          have := congrArg List.length ht
          simp at this hs
          omega
        rw [ih t hlent, ← ht, leadRun_replicate_append, Nat.add_mod_left]
      · rw [replaceAllAux, if_neg (fun hc => hpre hc.2)]
        have hlt : leadRun c (a :: rest) < k := by
          by_contra hge
          push_neg at hge
          exact hpre ((replicate_isPrefix_iff c k (a :: rest)).mpr hge)
        have hrest : rest.length ≤ fuel := by simp at hs; omega
        by_cases hac : a = c
        · subst hac
          rw [leadRun_cons_self] at hlt
          rw [leadRun_cons_self, leadRun_cons_self, ih rest hrest,
            Nat.mod_eq_of_lt (by omega), Nat.mod_eq_of_lt (by omega)]
        · rw [leadRun_cons_ne c a _ hac, leadRun_cons_ne c a rest hac]
          simp

/-- Core of the marker-freeness guarantee for repeated-character
markers: the removal pass leaves no occurrence of the marker behind. -/
theorem replaceAllAux_no_replicate (c : Char) (k : Nat) (hk : 1 ≤ k) :
    ∀ (fuel : Nat) (s : List Char), s.length ≤ fuel →
      ¬ List.replicate k c <:+: replaceAllAux (List.replicate k c) fuel s := by
  intro fuel
  induction fuel with
  | zero =>
    intro s hs hinf
    have hnil : s = [] := by
      cases s with
      | nil => rfl
      | cons a t => simp at hs
    subst hnil
    rw [replaceAllAux] at hinf
    have := List.eq_nil_of_infix_nil hinf
    simp [List.replicate_eq_nil_iff] at this
    omega
  | succ fuel ih =>
    intro s hs
    cases s with
    | nil =>
      intro hinf
      rw [replaceAllAux] at hinf
      have := List.eq_nil_of_infix_nil hinf
      simp [List.replicate_eq_nil_iff] at this
      omega
    | cons a rest =>
      have hnn : List.replicate k c ≠ [] := by
        simp [List.replicate_eq_nil_iff]
        omega
      by_cases hpre : List.replicate k c <+: a :: rest
      · rw [replaceAllAux, if_pos ⟨hnn, hpre⟩]
        obtain ⟨t, ht⟩ := hpre
        have hdrop : (a :: rest).drop (List.replicate k c).length = t := by
          rw [← ht, List.drop_left]
        rw [hdrop]
        have hlent : t.length ≤ fuel := by
          have := congrArg List.length ht
          simp at this hs
          omega
        exact ih t hlent
      · rw [replaceAllAux, if_neg (fun hc => hpre hc.2)]
        have hlt : leadRun c (a :: rest) < k := by
          by_contra hge
          push_neg at hge
          exact hpre ((replicate_isPrefix_iff c k (a :: rest)).mpr hge)
        have hrest : rest.length ≤ fuel := by simp at hs; omega
        intro hinf
        rcases List.infix_cons_iff.mp hinf with hp | hi
        · rw [replicate_isPrefix_iff] at hp
          by_cases hac : a = c
          · subst hac
            rw [leadRun_cons_self] at hlt
            rw [leadRun_cons_self, leadRun_replaceAllAux a k hk fuel rest hrest,
              Nat.mod_eq_of_lt (by omega)] at hp
            omega
          · rw [leadRun_cons_ne c a _ hac] at hp
            omega
        · exact ih rest hrest hi

/-- Stripping whitespace leaves a contiguous part of the original. -/
theorem strip_isInfix (s : List Char) : strip s <:+: s := by
  have h1 : lstrip s <:+ s := List.dropWhile_suffix isPySpace
  have h2 : rstrip (lstrip s) <+: lstrip s := by
    rw [← List.reverse_suffix, rstrip, List.reverse_reverse]
    exact List.dropWhile_suffix isPySpace
  exact h2.isInfix.trans h1.isInfix

/-- For a marker that is a non-empty run of one repeated character, the
replace-then-strip post-processing leaves no occurrence of it. -/
theorem run_marker_free (c : Char) (k : Nat) (hk : 1 ≤ k) (s : List Char) :
    ¬ List.replicate k c <:+: strip (strip (replaceAll (List.replicate k c) s)) := by
  intro h
  have h1 : strip (strip (replaceAll (List.replicate k c) s)) <:+:
      replaceAll (List.replicate k c) s :=
    (strip_isInfix _).trans (strip_isInfix _)
  exact replaceAllAux_no_replicate c k hk s.length s le_rfl (h.trans h1)

/-- C2 counterexample: with a well-formed two-message conversation, the
non-empty configured marker "ab" and the single fragment "aabb" (which
contains the marker), the buffered driver returns "ab": removing the
one occurrence of "ab" from "aabb" creates a new occurrence, so the
returned string does contain the marker. -/
theorem claim_C2_cex :
    "ab".data ≠ [] ∧
    "ab".data <:+: "aabb".data ∧
    (call_gpt ["aabb".data]
        [generate_system_message "s".data, generate_user_message "u".data]
        "ab".data).result? = some "ab".data ∧
    "ab".data <:+: "ab".data := by decide

/-- C2 amended: with the marker in the last fragment and in no earlier
one, the buffered driver returns the concatenation of all fragments in
arrival order with the occurrences of the marker removed by one
left-to-right non-overlapping pass, then whitespace-stripped; the
guarantee that the result contains no occurrence of the marker holds
whenever the marker is a non-empty run of a single repeated character
(as the default marker is), though not for arbitrary markers.  The
non-emptiness hypothesis on the message list marks where the model is
faithful: on an empty message list the source raises IndexError at
messages[-1] before any transport call. -/
theorem claim_C2 (stop : List Char) (init : List (List Char)) (lastf : List Char)
    (msgs : List Message)
    (hmsgs : msgs ≠ [])
    (hstop : stop ≠ [])
    (hinit : ∀ f ∈ init, ¬ stop <:+: f)
    (hlast : stop <:+: lastf) :
    (call_gpt (init ++ [lastf]) msgs stop).result? =
      some (strip (strip (replaceAll stop ((init ++ [lastf]).flatten)))) ∧
    ∀ (c : Char) (k : Nat), 1 ≤ k → stop = List.replicate k c →
      ∀ r, (call_gpt (init ++ [lastf]) msgs stop).result? = some r →
        ¬ stop <:+: r := by
  have h := callGptLoop_run stop init lastf [] [] (lastContent msgs) msgs hinit hlast
  have h1 : (call_gpt (init ++ [lastf]) msgs stop).result? =
      some (strip (strip (replaceAll stop ((init ++ [lastf]).flatten)))) := by
    rw [call_gpt, h.1]
    simp
  refine ⟨h1, ?_⟩
  rintro c k hk rfl r hr
  rw [h1] at hr
  obtain rfl := Option.some.inj hr
  exact run_marker_free c k hk _

/-- C2 witness: two rounds over the default marker; the result is the
trimmed concatenation and is free of the marker. -/
theorem claim_C2_witness :
    (call_gpt ["hello ".data, "world ‡‡‡‡‡".data]
        [generate_system_message "s".data, generate_user_message "u".data]
        "‡‡‡‡‡".data).result? = some "hello world".data ∧
    ¬ "‡‡‡‡‡".data <:+: "hello world".data := by
  have h := claim_C2 "‡‡‡‡‡".data ["hello ".data] "world ‡‡‡‡‡".data
    [generate_system_message "s".data, generate_user_message "u".data]
    (by decide) (by decide) (by decide) (by decide)
  simp only [List.cons_append, List.nil_append] at h
  have h1 : (call_gpt ["hello ".data, "world ‡‡‡‡‡".data]
      [generate_system_message "s".data, generate_user_message "u".data]
      "‡‡‡‡‡".data).result? = some "hello world".data := by
    rw [h.1]
    decide
  exact ⟨h1, h.2 '‡' 5 (by decide) (by decide) "hello world".data h1⟩

/-! ### The conversation-shape invariant (C7) -/

/-- Rewriting the trailing message content preserves the roles, the
earlier messages, and the length of the message list. -/
theorem setLastContent_facts (msgs : List Message) (c : List Char) :
    (setLastContent msgs c).map Message.role = msgs.map Message.role ∧
    (setLastContent msgs c).dropLast = msgs.dropLast ∧
    (setLastContent msgs c).length = msgs.length := by
  induction msgs with
  | nil => simp [setLastContent]
  | cons m ms ih =>
    cases ms with
    | nil => simp [setLastContent]
    | cons m2 rest =>
      obtain ⟨h1, h2, h3⟩ := ih
      refine ⟨by simp [setLastContent, h1], ?_, by simp [setLastContent, h3]⟩
      have hne : setLastContent (m2 :: rest) c ≠ [] := by
        intro hnil
        have := congrArg List.length hnil
        rw [h3] at this
        simp at this
      show (m :: setLastContent (m2 :: rest) c).dropLast = (m :: m2 :: rest).dropLast
      rw [List.dropLast_cons_of_ne_nil hne, List.dropLast_cons_of_ne_nil (by simp), h2]

/-- Trace of a non-terminating buffered round. -/
theorem callGptLoop_trace_cons (stop r : List Char) (L : List (List Char))
    (acc conv : List Char) (msgs : List Message) (h : ¬ stop <:+: r) :
    (callGptLoop stop (r :: L) acc conv msgs).trace =
      setLastContent msgs
          (conv ++ "\nAssistant:".data ++ r ++
            "\nUser:Continue immediately after where you left off.".data) ::
        (callGptLoop stop L (acc ++ r)
          (conv ++ "\nAssistant:".data ++ r ++
            "\nUser:Continue immediately after where you left off.".data)
          (setLastContent msgs
            (conv ++ "\nAssistant:".data ++ r ++
              "\nUser:Continue immediately after where you left off.".data))).trace := by
  simp [callGptLoop, accumulate_response, h]

/-- Trace of the terminating buffered round. -/
theorem callGptLoop_trace_cons_stop (stop r : List Char) (L : List (List Char))
    (acc conv : List Char) (msgs : List Message) (h : stop <:+: r) :
    (callGptLoop stop (r :: L) acc conv msgs).trace =
      [setLastContent msgs
        (conv ++ "\nAssistant:".data ++ r ++
          "\nUser:Continue immediately after where you left off.".data)] := by
  simp [callGptLoop, accumulate_response, h]

/-- Every message-list snapshot reached by the buffered loop keeps the
roles, the earlier messages and the length of the starting list. -/
theorem callGptLoop_trace_inv (stop : List Char) (responses : List (List Char)) :
    ∀ (acc conv : List Char) (msgs : List Message) (t : List Message),
      t ∈ (callGptLoop stop responses acc conv msgs).trace →
      t.map Message.role = msgs.map Message.role ∧
      t.dropLast = msgs.dropLast ∧ t.length = msgs.length := by
  induction responses with
  | nil => intro acc conv msgs t ht; simp [callGptLoop] at ht
  | cons r rest ih =>
    intro acc conv msgs t ht
    by_cases hstop : stop <:+: r
    · rw [callGptLoop_trace_cons_stop stop r rest acc conv msgs hstop] at ht
      obtain rfl := List.mem_singleton.mp ht
      exact setLastContent_facts msgs _
    · rw [callGptLoop_trace_cons stop r rest acc conv msgs hstop] at ht
      rcases List.mem_cons.mp ht with rfl | ht'
      · exact setLastContent_facts msgs _
      · have h1 := ih _ _ _ t ht'
        have h2 := setLastContent_facts msgs
          (conv ++ "\nAssistant:".data ++ r ++
            "\nUser:Continue immediately after where you left off.".data)
        exact ⟨h1.1.trans h2.1, h1.2.1.trans h2.2.1, h1.2.2.trans h2.2.2⟩

/-- Trace of a non-terminating streaming round. -/
theorem callGptStreamLoop_trace_cons (stop : List Char) (chunks : List (List Char))
    (L : List (List (List Char))) (acc conv : List Char) (msgs : List Message)
    (h : ¬ stop <:+: (chunks.filter (fun ch => !ch.isEmpty)).flatten) :
    (callGptStreamLoop stop (chunks :: L) acc conv msgs).trace =
      setLastContent msgs
          (conv ++ "\nAssistant:".data ++
            (chunks.filter (fun ch => !ch.isEmpty)).flatten ++
            "\nUser:Continue immediately after where you left off.".data) ::
        (callGptStreamLoop stop L (acc ++ (chunks.filter (fun ch => !ch.isEmpty)).flatten)
          (conv ++ "\nAssistant:".data ++
            (chunks.filter (fun ch => !ch.isEmpty)).flatten ++
            "\nUser:Continue immediately after where you left off.".data)
          (setLastContent msgs
            (conv ++ "\nAssistant:".data ++
              (chunks.filter (fun ch => !ch.isEmpty)).flatten ++
              "\nUser:Continue immediately after where you left off.".data))).trace := by
  simp [callGptStreamLoop, accumulate_response, h]

/-- Trace of the terminating streaming round. -/
theorem callGptStreamLoop_trace_cons_stop (stop : List Char) (chunks : List (List Char))
    (L : List (List (List Char))) (acc conv : List Char) (msgs : List Message)
    (h : stop <:+: (chunks.filter (fun ch => !ch.isEmpty)).flatten) :
    (callGptStreamLoop stop (chunks :: L) acc conv msgs).trace =
      [setLastContent msgs
        (conv ++ "\nAssistant:".data ++
          (chunks.filter (fun ch => !ch.isEmpty)).flatten ++
          "\nUser:Continue immediately after where you left off.".data)] := by
  simp [callGptStreamLoop, accumulate_response, h]

/-- Every message-list snapshot reached by the streaming loop keeps the
roles, the earlier messages and the length of the starting list. -/
theorem callGptStreamLoop_trace_inv (stop : List Char) (rounds : List (List (List Char))) :
    ∀ (acc conv : List Char) (msgs : List Message) (t : List Message),
      t ∈ (callGptStreamLoop stop rounds acc conv msgs).trace →
      t.map Message.role = msgs.map Message.role ∧
      t.dropLast = msgs.dropLast ∧ t.length = msgs.length := by
  induction rounds with
  | nil => intro acc conv msgs t ht; simp [callGptStreamLoop] at ht
  | cons chunks rest ih =>
    intro acc conv msgs t ht
    by_cases hstop : stop <:+: (chunks.filter (fun ch => !ch.isEmpty)).flatten
    · rw [callGptStreamLoop_trace_cons_stop stop chunks rest acc conv msgs hstop] at ht
      obtain rfl := List.mem_singleton.mp ht
      exact setLastContent_facts msgs _
    · rw [callGptStreamLoop_trace_cons stop chunks rest acc conv msgs hstop] at ht
      rcases List.mem_cons.mp ht with rfl | ht'
      · exact setLastContent_facts msgs _
      · have h1 := ih _ _ _ t ht'
        have h2 := setLastContent_facts msgs
          (conv ++ "\nAssistant:".data ++
            (chunks.filter (fun ch => !ch.isEmpty)).flatten ++
            "\nUser:Continue immediately after where you left off.".data)
        exact ⟨h1.1.trans h2.1, h1.2.1.trans h2.2.1, h1.2.2.trans h2.2.2⟩

/-- C7: throughout every run of either driver, on any round only the
content of the trailing message is rewritten: every message-list
snapshot in the trace has the same roles in the same order, the same
earlier messages, and the same length as the initial message list. -/
theorem claim_C7 (stop : List Char) (msgs : List Message)
    (responses : List (List Char)) (rounds : List (List (List Char)))
    (t : List Message) :
    (t ∈ (call_gpt responses msgs stop).trace →
      t.map Message.role = msgs.map Message.role ∧
      t.dropLast = msgs.dropLast ∧ t.length = msgs.length) ∧
    (t ∈ (call_gpt_stream rounds msgs stop).trace →
      t.map Message.role = msgs.map Message.role ∧
      t.dropLast = msgs.dropLast ∧ t.length = msgs.length) :=
  ⟨fun ht => callGptLoop_trace_inv stop responses [] (lastContent msgs) msgs t ht,
   fun ht => callGptStreamLoop_trace_inv stop rounds [] (lastContent msgs) msgs t ht⟩

/-- C7 witness: a concrete one-round run of each driver; the snapshot
after the round keeps the system message, the roles and the length, and
only the trailing user content changed. -/
theorem claim_C7_witness :
    ([generate_system_message "s".data,
        generate_user_message
          "u\nAssistant:a‡‡‡‡‡\nUser:Continue immediately after where you left off.".data]
      ∈ (call_gpt ["a‡‡‡‡‡".data]
          [generate_system_message "s".data, generate_user_message "u".data]
          "‡‡‡‡‡".data).trace) ∧
    [generate_system_message "s".data,
        generate_user_message
          "u\nAssistant:a‡‡‡‡‡\nUser:Continue immediately after where you left off.".data].map
        Message.role =
      [generate_system_message "s".data, generate_user_message "u".data].map Message.role ∧
    [generate_system_message "s".data,
        generate_user_message
          "u\nAssistant:a‡‡‡‡‡\nUser:Continue immediately after where you left off.".data].dropLast =
      [generate_system_message "s".data, generate_user_message "u".data].dropLast ∧
    [generate_system_message "s".data,
        generate_user_message
          "u\nAssistant:a‡‡‡‡‡\nUser:Continue immediately after where you left off.".data].length =
      [generate_system_message "s".data, generate_user_message "u".data].length ∧
    ([generate_system_message "s".data,
        generate_user_message
          "u\nAssistant:a‡‡‡‡‡\nUser:Continue immediately after where you left off.".data]
      ∈ (call_gpt_stream [["a‡".data, "".data, "‡‡‡‡".data]]
          [generate_system_message "s".data, generate_user_message "u".data]
          "‡‡‡‡‡".data).trace) := by
  have h := claim_C7 "‡‡‡‡‡".data
    [generate_system_message "s".data, generate_user_message "u".data]
    ["a‡‡‡‡‡".data] [["a‡".data, "".data, "‡‡‡‡".data]]
    [generate_system_message "s".data,
      generate_user_message
        "u\nAssistant:a‡‡‡‡‡\nUser:Continue immediately after where you left off.".data]
  have hm1 :
      [generate_system_message "s".data,
          generate_user_message
            "u\nAssistant:a‡‡‡‡‡\nUser:Continue immediately after where you left off.".data]
        ∈ (call_gpt ["a‡‡‡‡‡".data]
            [generate_system_message "s".data, generate_user_message "u".data]
            "‡‡‡‡‡".data).trace := by decide
  have hm2 :
      [generate_system_message "s".data,
          generate_user_message
            "u\nAssistant:a‡‡‡‡‡\nUser:Continue immediately after where you left off.".data]
        ∈ (call_gpt_stream [["a‡".data, "".data, "‡‡‡‡".data]]
            [generate_system_message "s".data, generate_user_message "u".data]
            "‡‡‡‡‡".data).trace := by decide
  exact ⟨hm1, (h.1 hm1).1, (h.1 hm1).2.1, (h.1 hm1).2.2, hm2⟩

end ROG
